import Mathlib

/-!
Verification development for the ELT-Pipeline repository.

The definitions below are a shallow embedding of the reconciliation core in
`Project/sync.py`, `Project/validators.py` and `Project/constants.py`:
pandas DataFrames become column-major lists of typed columns, the MySQL
table becomes a list of rows carrying the three bookkeeping fields, and the
effects of the emitted SQL statements (CREATE TABLE, the batched
INSERT ... ON DUPLICATE KEY UPDATE, and the soft-delete UPDATE) are modelled
as explicit state transformations on that table, following the documented
MySQL semantics of each emitted statement.  Fallible Python code (the
identifier sanitizers raise ValueError) is modelled with `Except String`.
-/

namespace ELT

/-- A scalar cell value of a dataset or of the target table.  `null` stands
for SQL NULL / pandas missing values.  Floating point columns are carried
abstractly through their dtype string; concrete float arithmetic never
occurs in the modelled code paths. -/
inductive Value where
  | int : Int → Value
  | str : String → Value
  | bool : Bool → Value
  | time : Nat → Value
  | null : Value
deriving DecidableEq

/-- SQL equality comparison as used in the emitted WHERE clauses and in
duplicate-key detection: a comparison with NULL is never true. -/
def sqlEq (a b : Value) : Bool :=
  match a, b with
  | Value.null, _ => false
  | _, Value.null => false
  | a, b => decide (a = b)

theorem sqlEq_iff (a b : Value) :
    sqlEq a b = true ↔ a = b ∧ a ≠ Value.null := by
  cases a <;> cases b <;> simp [sqlEq]

theorem sqlEq_symm (a b : Value) : sqlEq a b = sqlEq b a := by
  cases a <;> cases b <;> simp [sqlEq, eq_comm]

theorem sqlEq_self (a : Value) (h : a ≠ Value.null) : sqlEq a a = true := by
  exact (sqlEq_iff a a).mpr ⟨rfl, h⟩

/-! ### Identifier validation (`Project/constants.py`, `Project/validators.py`)

`VALID_TABLE_NAME` and `VALID_COLUMN_NAME` are both the Python regex
`^[a-zA-Z_][a-zA-Z0-9_]*$`, used via `re.Pattern.match`.  In Python, `$`
matches at the end of the string or just before a single newline at the end
of the string, so the matcher also accepts a valid identifier followed by
one trailing newline.  `strictIdentifier` is the pattern as the
specification words it (letter or underscore, then letters, digits or
underscores only); `pythonPatternMatch` is the faithful semantics of the
compiled regex under `re.match`. -/

def isIdentStart (c : Char) : Bool := c.isAlpha || c = '_'

def isIdentChar (c : Char) : Bool := c.isAlpha || c.isDigit || c = '_'

/-- The identifier pattern exactly as the specification describes it:
starts with a letter or underscore, followed by letters, digits, or
underscores only. -/
def strictIdentifier (s : String) : Bool :=
  match s.data with
  | [] => false
  | c :: cs => isIdentStart c && cs.all isIdentChar

/-- Faithful semantics of `re.compile(r"^[a-zA-Z_][a-zA-Z0-9_]*$").match s`
being truthy: either the whole string matches the character classes, or the
string is such a match followed by one final newline (Python `$`). -/
def pythonPatternMatch (s : String) : Bool :=
  strictIdentifier s ||
    (match s.data.getLast? with
     | some c => decide (c = '\n') && strictIdentifier (String.mk s.data.dropLast)
     | none => false)

/-- `validators.sanitize_table_name`: returns the name unchanged when the
regex matches, otherwise raises `ValueError(f"Invalid table name: ...")`. -/
def sanitize_table_name (table_name : String) : Except String String :=
  if pythonPatternMatch table_name then Except.ok table_name
  else Except.error ("Invalid table name: " ++ table_name)

/-- `validators.sanitize_column_name`: same pattern as for table names. -/
def sanitize_column_name (column_name : String) : Except String String :=
  if pythonPatternMatch column_name then Except.ok column_name
  else Except.error ("Invalid column name: " ++ column_name)

theorem sanitize_table_name_ok_eq {s t : String}
    (h : sanitize_table_name s = Except.ok t) : t = s := by
  unfold sanitize_table_name at h
  split at h
  · cases h; rfl
  · cases h

theorem sanitize_column_name_ok_eq {s t : String}
    (h : sanitize_column_name s = Except.ok t) : t = s := by
  unfold sanitize_column_name at h
  split at h
  · cases h; rfl
  · cases h

/-! ### The dataset model (pandas DataFrame, column-major) -/

/-- One dataset column: its name, its pandas dtype rendered as a string
(as by `str(dtype)` in the source), and its cell values. -/
structure Column where
  name : String
  dtype : String
  values : List Value
deriving DecidableEq

/-- A pandas DataFrame: an ordered sequence of named, typed columns.  All
columns of a well-formed frame have the same number of values. -/
structure DataFrame where
  columns : List Column
deriving DecidableEq

def DataFrame.nrows (df : DataFrame) : Nat :=
  (df.columns.head?.map (fun c => c.values.length)).getD 0

/-- Well-formedness: every column has `nrows` values (the pandas invariant
that all columns of a frame share one index). -/
def DataFrame.wf (df : DataFrame) : Prop :=
  ∀ c ∈ df.columns, c.values.length = df.nrows

/-- Row `i` of the frame in column order, as produced by
`source.itertuples(index=False)`. -/
def DataFrame.row (df : DataFrame) (i : Nat) : List Value :=
  df.columns.map (fun c => c.values.getD i Value.null)

/-- All rows of the frame, in dataset row order. -/
def DataFrame.rows (df : DataFrame) : List (List Value) :=
  (List.range df.nrows).map df.row

/-- Index of the (first) column with the given name. -/
def DataFrame.colIdx (df : DataFrame) (name : String) : Option Nat :=
  df.columns.findIdx? (fun c => c.name == name)

def DataFrame.keyColumn (df : DataFrame) (name : String) : Option Column :=
  (df.colIdx name).bind (fun j => df.columns.get? j)

/-- The values of the named key column, as extracted by
`[(row[primary_key],) for row in source.to_dict(orient="records")]`. -/
def DataFrame.keyValues (df : DataFrame) (name : String) : List Value :=
  ((df.keyColumn name).map Column.values).getD []

/-! ### Key inference (`sync.infer_primary_key`) -/

/-- `source[col].is_unique`: all values pairwise distinct. -/
def Column.is_unique (c : Column) : Bool :=
  decide c.values.Nodup

/-- `source[col].notna().all()`: no missing values. -/
def Column.notna_all (c : Column) : Bool :=
  c.values.all (fun v => decide (v ≠ Value.null))

/-- `pd.api.types.is_numeric_dtype` on the dtypes that occur in this model
(pandas counts bool as numeric). -/
def is_numeric_dtype (d : String) : Bool :=
  d = "int64" || d = "float64" || d = "bool"

/-- `pd.api.types.is_datetime64_any_dtype` on the dtypes of this model. -/
def is_datetime_dtype (d : String) : Bool :=
  d = "datetime64[ns]"

/-- The list comprehension computing `unique_columns` in
`infer_primary_key`. -/
def unique_columns (df : DataFrame) : List Column :=
  df.columns.filter (fun c => c.is_unique && c.notna_all)

/-- `sync.infer_primary_key`, mirroring the source control flow: the
unique/non-null columns are computed; a singleton is returned directly;
otherwise numeric columns are preferred, then datetime columns, then the
first unique column, then `None`. -/
def infer_primary_key (df : DataFrame) : Option String :=
  if (unique_columns df).length = 1 then
    (unique_columns df).head?.map Column.name
  else
    if ((unique_columns df).filter
        (fun c => is_numeric_dtype c.dtype)).isEmpty then
      if ((unique_columns df).filter
          (fun c => is_datetime_dtype c.dtype)).isEmpty then
        (unique_columns df).head?.map Column.name
      else
        ((unique_columns df).filter
          (fun c => is_datetime_dtype c.dtype)).head?.map Column.name
    else
      ((unique_columns df).filter
        (fun c => is_numeric_dtype c.dtype)).head?.map Column.name

/-- Eligibility exactly as the specification words it: values all non-null
and pairwise-distinct across every row. -/
def eligible_spec (c : Column) : Bool :=
  decide (c.values.Pairwise (fun a b => a ≠ b)) &&
    c.values.all (fun v => decide (v ≠ Value.null))

/-- The key selection rule exactly as the specification words it: if
exactly one eligible column exists return it; else the first eligible
numeric column in column order; else the first eligible date/time column;
else the first eligible column; else none. -/
def infer_primary_key_spec (df : DataFrame) : Option String :=
  if (df.columns.filter eligible_spec).length = 1 then
    (df.columns.filter eligible_spec).head?.map Column.name
  else
    match (df.columns.filter eligible_spec).find?
        (fun c => is_numeric_dtype c.dtype) with
    | some c => some c.name
    | none =>
      match (df.columns.filter eligible_spec).find?
          (fun c => is_datetime_dtype c.dtype) with
      | some c => some c.name
      | none => (df.columns.filter eligible_spec).head?.map Column.name

/-! ### Schema compilation (`sync.create_table_from_dataframe`) -/

/-- The `dtype_mapping` dictionary lookup with its `'VARCHAR(255)'`
default. -/
def dtype_mapping (dtype : String) : String :=
  if dtype = "int64" then "INT"
  else if dtype = "float64" then "FLOAT"
  else if dtype = "datetime64[ns]" then "DATETIME"
  else if dtype = "bool" then "TINYINT(1)"
  else if dtype = "object" then "TEXT"
  else "VARCHAR(255)"

/-- The list comprehension building the per-column definitions: each
column's sanitized name followed by its mapped type.  The first invalid
column name raises. -/
def column_defs : List Column → Except String (List String)
  | [] => Except.ok []
  | c :: cs =>
    match sanitize_column_name c.name, column_defs cs with
    | Except.error e, _ => Except.error e
    | _, Except.error e => Except.error e
    | Except.ok n, Except.ok ds =>
      Except.ok ((n ++ " " ++ dtype_mapping c.dtype) :: ds)

/-- `sync.create_table_from_dataframe`: assembles the per-column
definitions, the three bookkeeping columns in fixed order, and the primary
key constraint when a key was inferred, into a
`CREATE TABLE IF NOT EXISTS` statement. -/
def create_table_from_dataframe (df : DataFrame) (table_name : String)
    (primary_key : Option String) : Except String String :=
  match column_defs df.columns with
  | Except.error e => Except.error e
  | Except.ok ds =>
    let cols := ds ++
      ["synced_at TIMESTAMP DEFAULT CURRENT_TIMESTAMP",
       "last_modified TIMESTAMP DEFAULT CURRENT_TIMESTAMP ON UPDATE CURRENT_TIMESTAMP",
       "is_deleted BOOLEAN DEFAULT FALSE"]
    let cols := match primary_key with
      | some k => cols ++ ["PRIMARY KEY (" ++ k ++ ")"]
      | none => cols
    Except.ok ("CREATE TABLE IF NOT EXISTS " ++ table_name ++ " (" ++
      String.intercalate ", " cols ++ ");")

/-! ### The target table model

A row of the MySQL target table created by this pipeline: the values of the
dataset's columns (in dataset column order) plus the three bookkeeping
fields.  Timestamps are abstracted as naturals (`NOW()` is passed in as the
current time). -/

structure TargetRow where
  data : List Value
  synced_at : Nat
  last_modified : Nat
  is_deleted : Bool
deriving DecidableEq

/-- The key value of a table row, given the index of the primary key column
in the dataset's column order. -/
def keyAt (i : Nat) (x : TargetRow) : Value :=
  x.data.getD i Value.null

/-- The key value of a dataset row tuple. -/
def rowKey (i : Nat) (r : List Value) : Value :=
  r.getD i Value.null

/-! ### Batched upsert (`sync.upsert_data`) -/

/-- Effect on the target table of executing the emitted
`INSERT INTO ... VALUES (..., NOW(), NOW(), FALSE) ON DUPLICATE KEY UPDATE
col=VALUES(col)..., last_modified=NOW(), is_deleted=FALSE` statement for a
single dataset row, per the MySQL semantics of that statement.  When the
table has a primary key (`keyIdx = some i`) and a row with the same key
value exists, that row's dataset columns are overwritten, `last_modified`
is set to the current time and `is_deleted` is cleared, while `synced_at`
(absent from the UPDATE assignments) is untouched; otherwise — and always
when the table has no key — a fresh row is inserted with `synced_at` and
`last_modified` set to the current time and `is_deleted` false. -/
def upsert_row (keyIdx : Option Nat) (now : Nat) (r : List Value)
    (t : List TargetRow) : List TargetRow :=
  match keyIdx with
  | none => t ++ [⟨r, now, now, false⟩]
  | some i =>
    if t.any (fun x => sqlEq (keyAt i x) (rowKey i r)) then
      t.map (fun x =>
        if sqlEq (keyAt i x) (rowKey i r) then ⟨r, x.synced_at, now, false⟩
        else x)
    else t ++ [⟨r, now, now, false⟩]

/-- `cursor.executemany` over a batch: the rows are written sequentially. -/
def upsert_rows (keyIdx : Option Nat) (now : Nat) (rs : List (List Value))
    (t : List TargetRow) : List TargetRow :=
  rs.foldl (fun acc r => upsert_row keyIdx now r acc) t

/-- Fuel-driven slicing loop: one slice of up to 1000 elements is peeled
per step.  With fuel at least the list length this computes exactly the
`range(0, len(data_to_insert), BATCH_SIZE)` slicing of the source (each
step consumes at least one element, so the fuel never runs out). -/
def chunks_fuel {α : Type} : Nat → List α → List (List α)
  | _, [] => []
  | 0, _ :: _ => []
  | f + 1, x :: xs => (x :: xs).take 1000 :: chunks_fuel f ((x :: xs).drop 1000)

/-- The `range(0, len(data_to_insert), BATCH_SIZE)` slicing with
`BATCH_SIZE = 1000`. -/
def chunks1000 {α : Type} (l : List α) : List (List α) :=
  chunks_fuel l.length l

/-- `sync.upsert_data`: sanitizes every dataset column name (the first
invalid name raises before any sink call), then submits the dataset rows in
consecutive batches of at most 1000. -/
def upsert_data (df : DataFrame) (keyIdx : Option Nat) (now : Nat)
    (t : List TargetRow) : Except String (List TargetRow) :=
  match column_defs df.columns with
  | Except.error e => Except.error e
  | Except.ok _ =>
    Except.ok ((chunks1000 df.rows).foldl
      (fun acc b => upsert_rows keyIdx now b acc) t)

/-! ### Soft delete (`sync.perform_soft_delete`) -/

/-- Effect of the emitted `UPDATE ... SET is_deleted = TRUE,
last_modified = NOW() WHERE is_deleted = FALSE AND NOT EXISTS (SELECT 1
FROM temp WHERE temp.pk = dest.pk)` statement: every not-yet-deleted row
whose key value matches no staged key is marked deleted and its
last-modified time refreshed; every other row is untouched. -/
def soft_delete_mark (ks : List Value) (i : Nat) (now : Nat)
    (t : List TargetRow) : List TargetRow :=
  t.map (fun x =>
    if !x.is_deleted && !(ks.any (fun u => sqlEq u (keyAt i x))) then
      { x with is_deleted := true, last_modified := now }
    else x)

/-- The number of rows the soft-delete UPDATE touches. -/
def soft_delete_count (ks : List Value) (i : Nat)
    (t : List TargetRow) : Nat :=
  (t.filter (fun x =>
    !x.is_deleted && !(ks.any (fun u => sqlEq u (keyAt i x))))).length

/-- `sync.perform_soft_delete`: with no inferred key the function returns
immediately, performing no sink operation and raising nothing.  Otherwise
the staging-table name `table_name + "_temp"` is sanitized (raising on an
invalid name), the dataset's key values are staged, and the soft-delete
UPDATE is executed; the result is the new table together with the number of
updated rows.  The transient staging table itself (created, filled and
dropped inside the same transaction) has no effect on the target table and
is not part of the state. -/
def perform_soft_delete (df : DataFrame) (table_name : String)
    (primary_key : Option String) (now : Nat) (t : List TargetRow) :
    Except String (List TargetRow × Nat) :=
  match primary_key with
  | none => Except.ok (t, 0)
  | some k =>
    match sanitize_table_name (table_name ++ "_temp") with
    | Except.error e => Except.error e
    | Except.ok _ =>
      let ks := df.keyValues k
      let i := (df.colIdx k).getD 0
      Except.ok (soft_delete_mark ks i now t, soft_delete_count ks i t)

/-! ### The sync session (`sync.sync_data`) -/

/-- The transactional connection: the committed table state (none when the
table does not exist yet) and the pending state visible inside the open
transaction.  `commit` promotes pending to committed; `rollback` discards
pending. -/
structure Connection where
  committed : Option (List TargetRow)
  pending : Option (List TargetRow)
deriving DecidableEq

/-- The reported outcome of one sync session: success with the source row
count, a terminal failure after rollback (the `except` branch calling
`rollback` then `sys.exit`), or a crash from the statements preceding the
`try` block (an uncaught ValueError while deriving the table name or
building the CREATE statement, before any sink operation). -/
inductive SyncOutcome where
  | success : Nat → SyncOutcome
  | failure : String → SyncOutcome
  | crashed : String → SyncOutcome
deriving DecidableEq

/-- Characters of a string up to (excluding) the first occurrence of the
separator: the recursion behind `python_split_head`. -/
def split_head_chars (sep : List Char) : List Char → List Char
  | [] => []
  | c :: cs =>
    if sep.isPrefixOf (c :: cs) then [] else c :: split_head_chars sep cs

/-- `file.split(".csv")[0]` in Python: the prefix of the string up to the
first occurrence of the separator (the whole string when the separator
does not occur). -/
def python_split_head (sep s : String) : String :=
  String.mk (split_head_chars sep.data s.data)

/-- The statements of `sync_data` preceding the `try` block, in source
order: derive and sanitize the table name from the file name, infer and
sanitize the primary key, and build the CREATE TABLE statement. -/
def sync_prepare (df : DataFrame) (file : String) :
    Except String (String × Option String) :=
  match sanitize_table_name (python_split_head ".csv" file) with
  | Except.error e => Except.error e
  | Except.ok table_name =>
    match infer_primary_key df with
    | none =>
      match create_table_from_dataframe df table_name none with
      | Except.error e => Except.error e
      | Except.ok _ => Except.ok (table_name, none)
    | some c =>
      match sanitize_column_name c with
      | Except.error e => Except.error e
      | Except.ok k =>
        match create_table_from_dataframe df table_name (some k) with
        | Except.error e => Except.error e
        | Except.ok _ => Except.ok (table_name, some k)

/-- The body of the `try` block, acting on the pending transaction state:
ensure the table exists (CREATE TABLE IF NOT EXISTS on an absent table
yields an empty table), upsert every dataset row, then reconcile by soft
delete. -/
def run_sync_stages (df : DataFrame) (table_name : String)
    (primary_key : Option String) (now : Nat)
    (t0 : Option (List TargetRow)) : Except String (List TargetRow) :=
  let t := t0.getD []
  let keyIdx := primary_key.bind df.colIdx
  match upsert_data df keyIdx now t with
  | Except.error e => Except.error e
  | Except.ok t1 =>
    match perform_soft_delete df table_name primary_key now t1 with
    | Except.error e => Except.error e
    | Except.ok (t2, _) => Except.ok t2

/-- `sync.sync_data`: the statements before the `try` block crash the
process on error (nothing was pending, so the committed state is simply
kept); inside the `try` block any raised error triggers
`destination.rollback()` followed by `sys.exit` with a single terminal
message, while full success commits the pending state. -/
def sync_data (conn : Connection) (df : DataFrame) (file : String)
    (now : Nat) : Connection × SyncOutcome :=
  match sync_prepare df file with
  | Except.error e => (conn, SyncOutcome.crashed e)
  | Except.ok (table_name, primary_key) =>
    match run_sync_stages df table_name primary_key now conn.pending with
    | Except.error e =>
      (⟨conn.committed, conn.committed⟩, SyncOutcome.failure e)
    | Except.ok t => (⟨some t, some t⟩, SyncOutcome.success df.nrows)

/-! ### General helper lemmas -/

theorem strictIdentifier_append_temp (s : String)
    (h : strictIdentifier s = true) :
    strictIdentifier (s ++ "_temp") = true := by
  have hd : (s ++ "_temp").data = s.data ++ "_temp".data := rfl
  unfold strictIdentifier at h ⊢
  rw [hd]
  cases hc : s.data with
  | nil => rw [hc] at h; exact absurd h (by simp)
  | cons c cs =>
    rw [hc] at h
    simp only [List.cons_append]
    simp only [Bool.and_eq_true] at h ⊢
    refine ⟨h.1, ?_⟩
    rw [List.all_append]
    simp only [Bool.and_eq_true]
    exact ⟨h.2, by decide⟩

theorem sanitize_table_name_of_strict (s : String)
    (h : strictIdentifier s = true) :
    sanitize_table_name s = Except.ok s := by
  unfold sanitize_table_name pythonPatternMatch
  rw [h]
  rfl

theorem eligible_pred_eq (c : Column) :
    (c.is_unique && c.notna_all) = eligible_spec c := by
  unfold Column.is_unique Column.notna_all eligible_spec
  have h : decide c.values.Nodup =
      decide (c.values.Pairwise (fun a b => a ≠ b)) :=
    decide_eq_decide.mpr Iff.rfl
  rw [h]

theorem filter_isEmpty_of_find?_none {α : Type} (p : α → Bool) (l : List α)
    (h : l.find? p = none) : l.filter p = [] := by
  have hh := List.filter_head? p l
  rw [h] at hh
  exact List.head?_eq_none_iff.mp hh

/-! ### Lemmas for the idempotence analysis of the sync session -/

theorem keyAt_mk (i : Nat) (r : List Value) (a b : Nat) (c : Bool) :
    keyAt i ⟨r, a, b, c⟩ = rowKey i r := rfl

theorem upsert_row_eq_cases (i now : Nat) (r : List Value)
    (t : List TargetRow) :
    (t.any (fun x => sqlEq (keyAt i x) (rowKey i r)) = true ∧
      upsert_row (some i) now r t = t.map (fun x =>
        if sqlEq (keyAt i x) (rowKey i r) then ⟨r, x.synced_at, now, false⟩
        else x)) ∨
    (t.any (fun x => sqlEq (keyAt i x) (rowKey i r)) = false ∧
      upsert_row (some i) now r t = t ++ [⟨r, now, now, false⟩]) := by
  by_cases h : t.any (fun x => sqlEq (keyAt i x) (rowKey i r)) = true
  · refine Or.inl ⟨h, ?_⟩
    unfold upsert_row
    dsimp only
    rw [if_pos h]
  · refine Or.inr ⟨by simpa using h, ?_⟩
    unfold upsert_row
    dsimp only
    rw [if_neg h]

theorem upsert_row_preserves_presence (i now : Nat) (r : List Value)
    (t : List TargetRow) (v : Value)
    (h : ∃ x ∈ t, sqlEq (keyAt i x) v = true) :
    ∃ y ∈ upsert_row (some i) now r t, sqlEq (keyAt i y) v = true := by
  obtain ⟨x, hx, hxv⟩ := h
  rcases upsert_row_eq_cases i now r t with ⟨_, heq⟩ | ⟨_, heq⟩
  · rw [heq]
    by_cases hm : sqlEq (keyAt i x) (rowKey i r) = true
    · refine ⟨⟨r, x.synced_at, now, false⟩, ?_, ?_⟩
      · refine List.mem_map.mpr ⟨x, hx, ?_⟩
        rw [if_pos hm]
      · rw [keyAt_mk]
        obtain ⟨he1, hn1⟩ := (sqlEq_iff _ _).mp hxv
        obtain ⟨he2, _⟩ := (sqlEq_iff _ _).mp hm
        rw [← he2, he1]
        exact sqlEq_self v (he1 ▸ hn1)
    · refine ⟨x, ?_, hxv⟩
      refine List.mem_map.mpr ⟨x, hx, ?_⟩
      rw [if_neg hm]
  · rw [heq]
    exact ⟨x, List.mem_append_left _ hx, hxv⟩

theorem upsert_row_own_key_present (i now : Nat) (r : List Value)
    (t : List TargetRow) (h : rowKey i r ≠ Value.null) :
    ∃ y ∈ upsert_row (some i) now r t,
      sqlEq (keyAt i y) (rowKey i r) = true := by
  rcases upsert_row_eq_cases i now r t with ⟨hany, heq⟩ | ⟨_, heq⟩
  · obtain ⟨x, hx, hm⟩ := List.any_eq_true.mp hany
    rw [heq]
    refine ⟨⟨r, x.synced_at, now, false⟩, ?_, ?_⟩
    · exact List.mem_map.mpr ⟨x, hx, by rw [if_pos hm]⟩
    · rw [keyAt_mk]
      exact sqlEq_self _ h
  · rw [heq]
    refine ⟨⟨r, now, now, false⟩, ?_, ?_⟩
    · exact List.mem_append_right _ (by simp)
    · rw [keyAt_mk]
      exact sqlEq_self _ h

theorem upsert_rows_preserve_presence (i now : Nat) :
    ∀ (rs : List (List Value)) (t : List TargetRow) (v : Value),
      (∃ x ∈ t, sqlEq (keyAt i x) v = true) →
      ∃ y ∈ upsert_rows (some i) now rs t, sqlEq (keyAt i y) v = true := by
  intro rs
  induction rs with
  | nil => intro t v h; exact h
  | cons r rtl ih =>
    intro t v h
    exact ih (upsert_row (some i) now r t) v
      (upsert_row_preserves_presence i now r t v h)

theorem upsert_rows_keys_present (i now : Nat) :
    ∀ (rs : List (List Value)) (t : List TargetRow) (r0 : List Value),
      r0 ∈ rs → rowKey i r0 ≠ Value.null →
      ∃ y ∈ upsert_rows (some i) now rs t,
        sqlEq (keyAt i y) (rowKey i r0) = true := by
  intro rs
  induction rs with
  | nil => intro t r0 h; cases h
  | cons r rtl ih =>
    intro t r0 hmem hnn
    rcases List.mem_cons.mp hmem with hh | hh
    · subst hh
      exact upsert_rows_preserve_presence i now rtl _ _
        (upsert_row_own_key_present i now r0 t hnn)
    · exact ih (upsert_row (some i) now r t) r0 hh hnn

theorem upsert_row_establishes_matched (i now : Nat) (r : List Value)
    (t : List TargetRow) :
    ∀ x ∈ upsert_row (some i) now r t,
      sqlEq (keyAt i x) (rowKey i r) = true →
      x.data = r ∧ x.is_deleted = false := by
  intro x hx hm
  rcases upsert_row_eq_cases i now r t with ⟨_, heq⟩ | ⟨hany, heq⟩
  · rw [heq] at hx
    obtain ⟨u, _, hux⟩ := List.mem_map.mp hx
    by_cases hu : sqlEq (keyAt i u) (rowKey i r) = true
    · rw [if_pos hu] at hux
      rw [← hux]
      exact ⟨rfl, rfl⟩
    · rw [if_neg hu] at hux
      rw [← hux] at hm
      exact absurd hm hu
  · rw [heq] at hx
    rcases List.mem_append.mp hx with hh | hh
    · have := List.any_eq_false.mp hany x hh
      simp only [this] at hm
      cases hm
    · have hxe : x = ⟨r, now, now, false⟩ := by simpa using hh
      rw [hxe]
      exact ⟨rfl, rfl⟩

theorem upsert_row_preserves_matched (i now : Nat) (r : List Value)
    (t : List TargetRow) (v : Value) (d : List Value)
    (hvr : sqlEq (rowKey i r) v = false)
    (h : ∀ x ∈ t, sqlEq (keyAt i x) v = true →
      x.data = d ∧ x.is_deleted = false) :
    ∀ x ∈ upsert_row (some i) now r t, sqlEq (keyAt i x) v = true →
      x.data = d ∧ x.is_deleted = false := by
  intro x hx hm
  rcases upsert_row_eq_cases i now r t with ⟨_, heq⟩ | ⟨_, heq⟩
  · rw [heq] at hx
    obtain ⟨u, hu, hux⟩ := List.mem_map.mp hx
    by_cases hum : sqlEq (keyAt i u) (rowKey i r) = true
    · rw [if_pos hum] at hux
      rw [← hux, keyAt_mk] at hm
      rw [hm] at hvr
      cases hvr
    · rw [if_neg hum] at hux
      rw [← hux] at hm ⊢
      exact h u hu hm
  · rw [heq] at hx
    rcases List.mem_append.mp hx with hh | hh
    · exact h x hh hm
    · have hxe : x = ⟨r, now, now, false⟩ := by simpa using hh
      rw [hxe, keyAt_mk] at hm
      rw [hm] at hvr
      cases hvr

theorem upsert_rows_preserve_matched (i now : Nat) :
    ∀ (rs : List (List Value)) (t : List TargetRow) (v : Value)
      (d : List Value),
      (∀ r ∈ rs, sqlEq (rowKey i r) v = false) →
      (∀ x ∈ t, sqlEq (keyAt i x) v = true →
        x.data = d ∧ x.is_deleted = false) →
      ∀ x ∈ upsert_rows (some i) now rs t, sqlEq (keyAt i x) v = true →
        x.data = d ∧ x.is_deleted = false := by
  intro rs
  induction rs with
  | nil => intro t v d _ h; exact h
  | cons r rtl ih =>
    intro t v d hvr h
    exact ih (upsert_row (some i) now r t) v d
      (fun r2 hr2 => hvr r2 (List.mem_cons_of_mem r hr2))
      (upsert_row_preserves_matched i now r t v d
        (hvr r (List.mem_cons_self r rtl)) h)

theorem sqlEq_of_eq_mem_map_ne (i : Nat) (r r2 : List Value)
    (rtl : List (List Value))
    (hnd : ((r :: rtl).map (rowKey i)).Nodup) (hr2 : r2 ∈ rtl) :
    sqlEq (rowKey i r2) (rowKey i r) = false := by
  by_contra hc
  have hc2 : sqlEq (rowKey i r2) (rowKey i r) = true := by
    cases h : sqlEq (rowKey i r2) (rowKey i r) with
    | false => exact absurd h hc
    | true => rfl
  obtain ⟨he, _⟩ := (sqlEq_iff _ _).mp hc2
  have hmem : rowKey i r ∈ rtl.map (rowKey i) :=
    he ▸ List.mem_map_of_mem (rowKey i) hr2
  rw [List.map_cons] at hnd
  exact (List.nodup_cons.mp hnd).1 hmem

theorem upsert_rows_matched_data (i now : Nat) :
    ∀ (rs : List (List Value)) (t : List TargetRow),
      (rs.map (rowKey i)).Nodup →
      ∀ x ∈ upsert_rows (some i) now rs t, ∀ r ∈ rs,
        sqlEq (keyAt i x) (rowKey i r) = true →
        x.data = r ∧ x.is_deleted = false := by
  intro rs
  induction rs with
  | nil => intro t _ x _ r hr; cases hr
  | cons r rtl ih =>
    intro t hnd x hx r2 hr2 hm
    rcases List.mem_cons.mp hr2 with hh | hh
    · subst hh
      exact upsert_rows_preserve_matched i now rtl
        (upsert_row (some i) now r2 t) (rowKey i r2) r2
        (fun r3 hr3 => sqlEq_of_eq_mem_map_ne i r2 r3 rtl hnd hr3)
        (upsert_row_establishes_matched i now r2 t) x hx hm
    · have hnd2 : (rtl.map (rowKey i)).Nodup := by
        rw [List.map_cons] at hnd
        exact List.Nodup.of_cons hnd
      exact ih (upsert_row (some i) now r t) hnd2 x hx r2 hh hm

theorem upsert_rows_cons (k : Option Nat) (now : Nat) (r : List Value)
    (rs : List (List Value)) (t : List TargetRow) :
    upsert_rows k now (r :: rs) t =
      upsert_rows k now rs (upsert_row k now r t) := rfl

theorem sqlEq_false_symm (a b : Value) (h : sqlEq a b = false) :
    sqlEq b a = false := by
  rw [sqlEq_symm]
  exact h

theorem upsert_rows_all_present_eq_map (i now : Nat) :
    ∀ (rs : List (List Value)) (t : List TargetRow),
      (rs.map (rowKey i)).Nodup →
      (∀ r ∈ rs, ∃ x ∈ t, sqlEq (keyAt i x) (rowKey i r) = true) →
      upsert_rows (some i) now rs t =
        t.map (fun x =>
          match rs.find? (fun r => sqlEq (keyAt i x) (rowKey i r)) with
          | some r => ⟨r, x.synced_at, now, false⟩
          | none => x) := by
  intro rs
  induction rs with
  | nil =>
    intro t _ _
    show t = t.map (fun x => x)
    rw [List.map_id']
  | cons r rtl ih =>
    intro t hnd hpres
    obtain ⟨x0, hx0, hm0⟩ := hpres r (List.mem_cons_self r rtl)
    have hany : t.any (fun x => sqlEq (keyAt i x) (rowKey i r)) = true :=
      List.any_eq_true.mpr ⟨x0, hx0, hm0⟩
    have heq : upsert_row (some i) now r t = t.map (fun x =>
        if sqlEq (keyAt i x) (rowKey i r) then ⟨r, x.synced_at, now, false⟩
        else x) := by
      rcases upsert_row_eq_cases i now r t with ⟨_, he⟩ | ⟨hf, _⟩
      · exact he
      · rw [hany] at hf
        cases hf
    have hnd2 : (rtl.map (rowKey i)).Nodup := by
      rw [List.map_cons] at hnd
      exact List.Nodup.of_cons hnd
    have hpres2 : ∀ r2 ∈ rtl, ∃ x ∈ t.map (fun x =>
        if sqlEq (keyAt i x) (rowKey i r) then ⟨r, x.synced_at, now, false⟩
        else x), sqlEq (keyAt i x) (rowKey i r2) = true := by
      intro r2 hr2
      obtain ⟨x, hx, hm⟩ := hpres r2 (List.mem_cons_of_mem r hr2)
      by_cases hxr : sqlEq (keyAt i x) (rowKey i r) = true
      · exfalso
        obtain ⟨he1, hn1⟩ := (sqlEq_iff _ _).mp hm
        obtain ⟨he2, _⟩ := (sqlEq_iff _ _).mp hxr
        have : sqlEq (rowKey i r2) (rowKey i r) = true := by
          rw [← he1, ← he2]
          exact sqlEq_self _ hn1
        rw [sqlEq_of_eq_mem_map_ne i r r2 rtl hnd hr2] at this
        cases this
      · refine ⟨x, ?_, hm⟩
        refine List.mem_map.mpr ⟨x, hx, ?_⟩
        rw [if_neg hxr]
    rw [upsert_rows_cons, heq, ih _ hnd2 hpres2, List.map_map]
    refine List.map_eq_map_iff.mpr ?_
    intro x hx
    simp only [Function.comp_apply]
    by_cases hxr : sqlEq (keyAt i x) (rowKey i r) = true
    · rw [if_pos hxr]
      have hfind : rtl.find?
          (fun r2 => sqlEq (keyAt i (⟨r, x.synced_at, now, false⟩ : TargetRow))
            (rowKey i r2)) = none := by
        refine List.find?_eq_none.mpr ?_
        intro r2 hr2
        rw [keyAt_mk]
        rw [sqlEq_false_symm _ _ (sqlEq_of_eq_mem_map_ne i r r2 rtl hnd hr2)]
        simp
      rw [hfind,
        @List.find?_cons_of_pos _ (fun r2 => sqlEq (keyAt i x) (rowKey i r2))
          r rtl hxr]
    · rw [if_neg hxr,
        @List.find?_cons_of_neg _ (fun r2 => sqlEq (keyAt i x) (rowKey i r2))
          r rtl hxr]

theorem soft_delete_mark_noop (ks : List Value) (i now : Nat)
    (t : List TargetRow)
    (h : ∀ x ∈ t, x.is_deleted = false →
      ks.any (fun u => sqlEq u (keyAt i x)) = true) :
    soft_delete_mark ks i now t = t := by
  unfold soft_delete_mark
  have he : ∀ x ∈ t,
      (if !x.is_deleted && !(ks.any (fun u => sqlEq u (keyAt i x))) then
        ({ x with is_deleted := true, last_modified := now } : TargetRow)
      else x) = x := by
    intro x hx
    by_cases hd : x.is_deleted = false
    · rw [if_neg]
      rw [Bool.and_eq_true, Bool.not_eq_true', Bool.not_eq_true']
      intro hcc
      rw [h x hx hd] at hcc
      cases hcc.2
    · rw [if_neg]
      rw [Bool.and_eq_true, Bool.not_eq_true', Bool.not_eq_true']
      intro hcc
      exact hd hcc.1
  calc t.map _ = t.map (fun x => x) := List.map_eq_map_iff.mpr he
    _ = t := List.map_id' t

theorem soft_delete_mark_not_deleted_key_staged (ks : List Value)
    (i now : Nat) (t : List TargetRow) :
    ∀ x ∈ soft_delete_mark ks i now t, x.is_deleted = false →
      ks.any (fun u => sqlEq u (keyAt i x)) = true := by
  intro x hx hdel
  unfold soft_delete_mark at hx
  obtain ⟨u, _, hux⟩ := List.mem_map.mp hx
  by_cases hc : (!u.is_deleted &&
      !(ks.any (fun w => sqlEq w (keyAt i u)))) = true
  · rw [if_pos hc] at hux
    rw [← hux] at hdel
    cases hdel
  · rw [if_neg hc] at hux
    rw [Bool.and_eq_true, Bool.not_eq_true', Bool.not_eq_true'] at hc
    rw [← hux]
    rw [← hux] at hdel
    rcases Decidable.not_and_iff_or_not.mp hc with hh | hh
    · exact absurd hdel hh
    · cases hany : ks.any (fun w => sqlEq w (keyAt i u)) with
      | false => exact absurd hany hh
      | true => rfl

theorem soft_delete_mark_preserves_presence (ks : List Value)
    (i now : Nat) (t : List TargetRow) (v : Value)
    (h : ∃ x ∈ t, sqlEq (keyAt i x) v = true) :
    ∃ y ∈ soft_delete_mark ks i now t, sqlEq (keyAt i y) v = true := by
  obtain ⟨x, hx, hm⟩ := h
  unfold soft_delete_mark
  by_cases hc : (!x.is_deleted &&
      !(ks.any (fun w => sqlEq w (keyAt i x)))) = true
  · refine ⟨{ x with is_deleted := true, last_modified := now }, ?_, ?_⟩
    · exact List.mem_map.mpr ⟨x, hx, by rw [if_pos hc]⟩
    · exact hm
  · refine ⟨x, ?_, hm⟩
    exact List.mem_map.mpr ⟨x, hx, by rw [if_neg hc]⟩

theorem soft_delete_mark_preserves_matched (ks : List Value)
    (i now : Nat) (t : List TargetRow) (v : Value) (d : List Value)
    (hv : ks.any (fun u => sqlEq u v) = true)
    (h : ∀ x ∈ t, sqlEq (keyAt i x) v = true →
      x.data = d ∧ x.is_deleted = false) :
    ∀ x ∈ soft_delete_mark ks i now t, sqlEq (keyAt i x) v = true →
      x.data = d ∧ x.is_deleted = false := by
  intro x hx hm
  unfold soft_delete_mark at hx
  obtain ⟨u, hu, hux⟩ := List.mem_map.mp hx
  by_cases hc : (!u.is_deleted &&
      !(ks.any (fun w => sqlEq w (keyAt i u)))) = true
  · exfalso
    rw [if_pos hc] at hux
    have hkx : keyAt i x = keyAt i u := by rw [← hux]; rfl
    rw [hkx] at hm
    obtain ⟨he, hn⟩ := (sqlEq_iff _ _).mp hm
    obtain ⟨w, hw, hwv⟩ := List.any_eq_true.mp hv
    have hwu : sqlEq w (keyAt i u) = true := by rw [he]; exact hwv
    have hanyu : ks.any (fun w2 => sqlEq w2 (keyAt i u)) = true :=
      List.any_eq_true.mpr ⟨w, hw, hwu⟩
    rw [Bool.and_eq_true, Bool.not_eq_true', Bool.not_eq_true'] at hc
    rw [hanyu] at hc
    cases hc.2
  · rw [if_neg hc] at hux
    rw [← hux] at hm ⊢
    exact h u hu hm

/-- The core idempotence fact, at the level of the two sink stages: after
one upsert-plus-reconcile pass, a second pass over the same rows and keys
only refreshes the last-modified time of the rows whose key occurs in the
dataset, leaving length, data, synced-at and the deletion flags of every
row unchanged. -/
theorem sync_stages_idempotent_core (i now1 now2 : Nat)
    (rs : List (List Value)) (ks : List Value) (t0 : List TargetRow)
    (hks : ks = rs.map (rowKey i))
    (hnn : ∀ r ∈ rs, rowKey i r ≠ Value.null)
    (hnd : ks.Nodup) :
    soft_delete_mark ks i now2
        (upsert_rows (some i) now2 rs
          (soft_delete_mark ks i now1 (upsert_rows (some i) now1 rs t0))) =
      (soft_delete_mark ks i now1 (upsert_rows (some i) now1 rs t0)).map
        (fun x => if ks.any (fun u => sqlEq u (keyAt i x)) then
          { x with last_modified := now2 } else x) := by
  have hndm : (rs.map (rowKey i)).Nodup := hks ▸ hnd
  have hvany : ∀ r ∈ rs, ks.any (fun u => sqlEq u (rowKey i r)) = true := by
    intro r hr
    refine List.any_eq_true.mpr ⟨rowKey i r, ?_, sqlEq_self _ (hnn r hr)⟩
    rw [hks]
    exact List.mem_map_of_mem _ hr
  have hpres1 : ∀ r ∈ rs,
      ∃ x ∈ soft_delete_mark ks i now1 (upsert_rows (some i) now1 rs t0),
        sqlEq (keyAt i x) (rowKey i r) = true := by
    intro r hr
    exact soft_delete_mark_preserves_presence ks i now1 _ _
      (upsert_rows_keys_present i now1 rs t0 r hr (hnn r hr))
  have hmatched1 : ∀ x ∈ soft_delete_mark ks i now1
        (upsert_rows (some i) now1 rs t0), ∀ r ∈ rs,
      sqlEq (keyAt i x) (rowKey i r) = true →
      x.data = r ∧ x.is_deleted = false := by
    intro x hx r hr hm
    exact soft_delete_mark_preserves_matched ks i now1 _ (rowKey i r) r
      (hvany r hr)
      (fun y hy hym => upsert_rows_matched_data i now1 rs t0 hndm y hy r hr hym)
      x hx hm
  have hpost1 : ∀ x ∈ soft_delete_mark ks i now1
        (upsert_rows (some i) now1 rs t0), x.is_deleted = false →
      ks.any (fun u => sqlEq u (keyAt i x)) = true :=
    soft_delete_mark_not_deleted_key_staged ks i now1 _
  set T1 := soft_delete_mark ks i now1 (upsert_rows (some i) now1 rs t0)
    with hT1
  have hups2 : upsert_rows (some i) now2 rs T1 = T1.map (fun x =>
      match rs.find? (fun r => sqlEq (keyAt i x) (rowKey i r)) with
      | some r => ⟨r, x.synced_at, now2, false⟩
      | none => x) :=
    upsert_rows_all_present_eq_map i now2 rs T1 hndm hpres1
  rw [hups2]
  have hnoop : soft_delete_mark ks i now2 (T1.map (fun x =>
      match rs.find? (fun r => sqlEq (keyAt i x) (rowKey i r)) with
      | some r => ⟨r, x.synced_at, now2, false⟩
      | none => x)) = T1.map (fun x =>
      match rs.find? (fun r => sqlEq (keyAt i x) (rowKey i r)) with
      | some r => ⟨r, x.synced_at, now2, false⟩
      | none => x) := by
    refine soft_delete_mark_noop ks i now2 _ ?_
    intro y hy hydel
    obtain ⟨x, hxT1, hxy⟩ := List.mem_map.mp hy
    cases hfind : rs.find? (fun r => sqlEq (keyAt i x) (rowKey i r)) with
    | some r =>
      rw [hfind] at hxy
      have hr : r ∈ rs := List.mem_of_find?_eq_some hfind
      have hky : keyAt i y = rowKey i r := by rw [← hxy]; rfl
      rw [hky]
      exact hvany r hr
    | none =>
      rw [hfind] at hxy
      rw [← hxy]
      rw [← hxy] at hydel
      exact hpost1 x hxT1 hydel
  rw [hnoop]
  refine List.map_eq_map_iff.mpr ?_
  intro x hx
  cases hfind : rs.find? (fun r => sqlEq (keyAt i x) (rowKey i r)) with
  | some r =>
    have hr : r ∈ rs := List.mem_of_find?_eq_some hfind
    have hm : sqlEq (keyAt i x) (rowKey i r) = true := by
      have h0 := List.find?_some hfind
      simpa using h0
    obtain ⟨hdata, hdel⟩ := hmatched1 x hx r hr hm
    have hcond : ks.any (fun u => sqlEq u (keyAt i x)) = true := by
      obtain ⟨he, hn⟩ := (sqlEq_iff _ _).mp hm
      rw [he]
      exact hvany r hr
    rw [if_pos hcond]
    cases x with
    | mk xd xs xl xdel =>
      simp only at hdata hdel
      rw [hdata, hdel]
  | none =>
    have hcond : ks.any (fun u => sqlEq u (keyAt i x)) = false := by
      cases hc : ks.any (fun u => sqlEq u (keyAt i x)) with
      | false => rfl
      | true =>
        exfalso
        obtain ⟨u, hu, huv⟩ := List.any_eq_true.mp hc
        rw [hks] at hu
        obtain ⟨r, hr, hru⟩ := List.mem_map.mp hu
        have : sqlEq (keyAt i x) (rowKey i r) = true := by
          rw [sqlEq_symm, hru]
          exact huv
        exact absurd this (by simpa using List.find?_eq_none.mp hfind r hr)
    rw [hcond]
    simp

theorem chunks_fuel_join {α : Type} :
    ∀ (f : Nat) (l : List α), l.length ≤ f → (chunks_fuel f l).flatten = l := by
  intro f
  induction f with
  | zero =>
    intro l hl
    cases l with
    | nil => rfl
    | cons x xs => simp at hl
  | succ f ih =>
    intro l hl
    cases l with
    | nil => rfl
    | cons x xs =>
      have hd : ((x :: xs).drop 1000).length ≤ f := by
        simp only [List.length_drop, List.length_cons]
        simp only [List.length_cons] at hl
        omega
      simp only [chunks_fuel, List.flatten_cons, ih _ hd, List.take_append_drop]

theorem chunks1000_join {α : Type} (l : List α) :
    (chunks1000 l).flatten = l :=
  chunks_fuel_join l.length l le_rfl

theorem chunks_fuel_length_le {α : Type} :
    ∀ (f : Nat) (l : List α) (b : List α),
      b ∈ chunks_fuel f l → b.length ≤ 1000 := by
  intro f
  induction f with
  | zero =>
    intro l b hb
    cases l with
    | nil => simp [chunks_fuel] at hb
    | cons x xs => simp [chunks_fuel] at hb
  | succ f ih =>
    intro l b hb
    cases l with
    | nil => simp [chunks_fuel] at hb
    | cons x xs =>
      simp only [chunks_fuel, List.mem_cons] at hb
      rcases hb with hb | hb
      · rw [hb, List.length_take]
        omega
      · exact ih _ b hb

theorem foldl_upsert_chunks (keyIdx : Option Nat) (now : Nat) :
    ∀ (bs : List (List (List Value))) (t : List TargetRow),
      bs.foldl (fun acc b => upsert_rows keyIdx now b acc) t =
        upsert_rows keyIdx now bs.flatten t := by
  intro bs
  induction bs with
  | nil => intro t; rfl
  | cons b bs ih =>
    intro t
    simp only [List.foldl_cons, List.flatten_cons, ih]
    unfold upsert_rows
    rw [List.foldl_append]

/-! ### Plumbing: from dataset hypotheses to the key/row facts -/

theorem head_map_name_mem {l : List Column} {k : String}
    (h : l.head?.map Column.name = some k) : ∃ c ∈ l, c.name = k := by
  cases l with
  | nil => cases h
  | cons c cs => exact ⟨c, List.mem_cons_self c cs, by simpa using h⟩

theorem infer_some_mem (df : DataFrame) (k : String)
    (h : infer_primary_key df = some k) :
    ∃ c ∈ unique_columns df, c.name = k := by
  unfold infer_primary_key at h
  split_ifs at h with h1 h2 h3
  · exact head_map_name_mem h
  · exact head_map_name_mem h
  · obtain ⟨c, hc, hn⟩ := head_map_name_mem h
    exact ⟨c, List.mem_of_mem_filter hc, hn⟩
  · obtain ⟨c, hc, hn⟩ := head_map_name_mem h
    exact ⟨c, List.mem_of_mem_filter hc, hn⟩

theorem colIdx_some_facts (df : DataFrame) (k : String) (i : Nat)
    (h : df.colIdx k = some i) :
    ∃ hlt : i < df.columns.length,
      (df.columns.get ⟨i, hlt⟩).name = k := by
  unfold DataFrame.colIdx at h
  obtain ⟨hlt, hp, _⟩ := List.findIdx?_eq_some_iff_getElem.mp h
  refine ⟨hlt, eq_of_beq ?_⟩
  simpa using hp

theorem getD_of_get? {α : Type} (l : List α) (i : Nat) (d a : α)
    (h : l.get? i = some a) : l.getD i d = a := by
  unfold List.getD
  rw [h]
  rfl

theorem keyValues_eq_of_colIdx (df : DataFrame) (k : String) (i : Nat)
    (hi : df.colIdx k = some i) (hlt : i < df.columns.length) :
    df.keyValues k = (df.columns.get ⟨i, hlt⟩).values := by
  unfold DataFrame.keyValues DataFrame.keyColumn
  rw [hi]
  simp only [Option.some_bind]
  rw [List.get?_eq_get hlt]
  rfl

theorem map_range_getD (v : List Value) :
    (List.range v.length).map (fun j => v.getD j Value.null) = v := by
  refine List.ext_get (by simp) ?_
  intro j ha hb
  simp only [List.get_eq_getElem, List.getElem_map, List.getElem_range]
  exact getD_of_get? v j Value.null _ (List.get?_eq_get hb)

theorem rowKey_row_eq (df : DataFrame) (i : Nat)
    (hlt : i < df.columns.length) (j : Nat) :
    rowKey i (df.row j) =
      (df.columns.get ⟨i, hlt⟩).values.getD j Value.null := by
  unfold rowKey DataFrame.row
  refine getD_of_get? _ i Value.null _ ?_
  rw [List.get?_map, List.get?_eq_get hlt]
  rfl

theorem keyValues_eq_rows_map (df : DataFrame) (k : String) (i : Nat)
    (hi : df.colIdx k = some i) (hwf : df.wf) :
    df.keyValues k = df.rows.map (rowKey i) := by
  obtain ⟨hlt, _⟩ := colIdx_some_facts df k i hi
  rw [keyValues_eq_of_colIdx df k i hi hlt]
  unfold DataFrame.rows
  rw [List.map_map]
  have hc : ∀ j ∈ List.range df.nrows, (rowKey i ∘ df.row) j =
      (df.columns.get ⟨i, hlt⟩).values.getD j Value.null := by
    intro j _
    simp only [Function.comp_apply]
    exact rowKey_row_eq df i hlt j
  rw [List.map_congr_left hc]
  have hlen : (df.columns.get ⟨i, hlt⟩).values.length = df.nrows :=
    hwf _ (List.get_mem df.columns i hlt)
  rw [← hlen, map_range_getD]

theorem inferred_key_column_eligible (df : DataFrame) (k : String) (i : Nat)
    (hnames : (df.columns.map Column.name).Nodup)
    (hk : infer_primary_key df = some k)
    (hi : df.colIdx k = some i) (hlt : i < df.columns.length) :
    (df.columns.get ⟨i, hlt⟩).is_unique = true ∧
    (df.columns.get ⟨i, hlt⟩).notna_all = true := by
  obtain ⟨c, hcu, hcn⟩ := infer_some_mem df k hk
  have hcmem : c ∈ df.columns := List.mem_of_mem_filter hcu
  have hpred := List.of_mem_filter hcu
  obtain ⟨hlt2, hname⟩ := colIdx_some_facts df k i hi
  have hmi : df.columns.get ⟨i, hlt⟩ ∈ df.columns := List.get_mem _ i hlt
  have hceq : c = df.columns.get ⟨i, hlt⟩ := by
    refine List.inj_on_of_nodup_map hnames hcmem hmi ?_
    rw [hcn, hname]
  rw [← hceq]
  simpa using hpred

theorem keyValues_nodup (df : DataFrame) (k : String) (i : Nat)
    (hnames : (df.columns.map Column.name).Nodup)
    (hk : infer_primary_key df = some k)
    (hi : df.colIdx k = some i) :
    (df.keyValues k).Nodup := by
  obtain ⟨hlt, _⟩ := colIdx_some_facts df k i hi
  rw [keyValues_eq_of_colIdx df k i hi hlt]
  exact of_decide_eq_true
    (inferred_key_column_eligible df k i hnames hk hi hlt).1

theorem keyValues_nonnull (df : DataFrame) (k : String) (i : Nat)
    (hnames : (df.columns.map Column.name).Nodup)
    (hk : infer_primary_key df = some k)
    (hi : df.colIdx k = some i) :
    ∀ v ∈ df.keyValues k, v ≠ Value.null := by
  obtain ⟨hlt, _⟩ := colIdx_some_facts df k i hi
  intro v hv
  rw [keyValues_eq_of_colIdx df k i hi hlt] at hv
  have h2 := (inferred_key_column_eligible df k i hnames hk hi hlt).2
  unfold Column.notna_all at h2
  exact of_decide_eq_true (List.all_eq_true.mp h2 v hv)

/-! ### Plumbing: decomposition of a successful sync session -/

theorem sync_data_success_decompose (conn : Connection) (df : DataFrame)
    (file : String) (now : Nat) (conn1 : Connection) (m : Nat)
    (h : sync_data conn df file now = (conn1, SyncOutcome.success m)) :
    ∃ table_name primary_key T,
      sync_prepare df file = Except.ok (table_name, primary_key) ∧
      run_sync_stages df table_name primary_key now conn.pending =
        Except.ok T ∧
      conn1 = ⟨some T, some T⟩ ∧ m = df.nrows := by
  unfold sync_data at h
  cases hp : sync_prepare df file with
  | error e => rw [hp] at h; simp at h
  | ok pr =>
    obtain ⟨table_name, primary_key⟩ := pr
    rw [hp] at h
    dsimp only at h
    cases hs : run_sync_stages df table_name primary_key now conn.pending with
    | error e => rw [hs] at h; simp at h
    | ok T =>
      rw [hs] at h
      dsimp only at h
      injection h with h1 h2
      injection h2 with h3
      exact ⟨table_name, primary_key, T, rfl, hs, h1.symm, h3.symm⟩

theorem sync_prepare_ok_key (df : DataFrame) (file : String)
    (table_name : String) (primary_key : Option String) (k : String)
    (hk : infer_primary_key df = some k)
    (h : sync_prepare df file = Except.ok (table_name, primary_key)) :
    primary_key = some k := by
  unfold sync_prepare at h
  cases hst : sanitize_table_name (python_split_head ".csv" file) with
  | error e => rw [hst] at h; cases h
  | ok tn =>
    rw [hst, hk] at h
    dsimp only at h
    cases hsc : sanitize_column_name k with
    | error e => rw [hsc] at h; cases h
    | ok k2 =>
      rw [hsc] at h
      dsimp only at h
      have hk2 : k2 = k := sanitize_column_name_ok_eq hsc
      cases hct : create_table_from_dataframe df tn (some k2) with
      | error e => rw [hct] at h; cases h
      | ok q =>
        rw [hct] at h
        dsimp only at h
        injection h with h1
        injection h1 with h2 h3
        rw [← h3, hk2]

theorem run_sync_stages_some_eval (df : DataFrame) (tname k : String)
    (i : Nat) (hi : df.colIdx k = some i) (now : Nat)
    (t0 : Option (List TargetRow)) (l : List String) (s : String)
    (hcd : column_defs df.columns = Except.ok l)
    (hsan : sanitize_table_name (tname ++ "_temp") = Except.ok s) :
    run_sync_stages df tname (some k) now t0 = Except.ok
      (soft_delete_mark (df.keyValues k) i now
        (upsert_rows (some i) now df.rows (t0.getD []))) := by
  unfold run_sync_stages upsert_data perform_soft_delete
  simp only [Option.some_bind, hi, hcd, hsan, Option.getD_some]
  rw [foldl_upsert_chunks, chunks1000_join]

theorem run_sync_stages_some_decompose (df : DataFrame) (tname k : String)
    (i : Nat) (hi : df.colIdx k = some i) (now : Nat)
    (t0 : Option (List TargetRow)) (T : List TargetRow)
    (h : run_sync_stages df tname (some k) now t0 = Except.ok T) :
    (∃ l, column_defs df.columns = Except.ok l) ∧
    (∃ s, sanitize_table_name (tname ++ "_temp") = Except.ok s) ∧
    T = soft_delete_mark (df.keyValues k) i now
      (upsert_rows (some i) now df.rows (t0.getD [])) := by
  unfold run_sync_stages upsert_data perform_soft_delete at h
  simp only [Option.some_bind, hi, Option.getD_some] at h
  cases hcd : column_defs df.columns with
  | error e => rw [hcd] at h; cases h
  | ok l =>
    rw [hcd] at h
    cases hsan : sanitize_table_name (tname ++ "_temp") with
    | error e => rw [hsan] at h; cases h
    | ok s =>
      rw [hsan] at h
      injection h with h1
      refine ⟨⟨l, rfl⟩, ⟨s, rfl⟩, ?_⟩
      rw [← h1, foldl_upsert_chunks, chunks1000_join]

/-! ### Claim theorems -/

theorem column_defs_eq_of_valid (cs : List Column)
    (h : ∀ c ∈ cs, pythonPatternMatch c.name = true) :
    column_defs cs =
      Except.ok (cs.map (fun c => c.name ++ " " ++ dtype_mapping c.dtype)) := by
  induction cs with
  | nil => rfl
  | cons c cs ih =>
    have hc : pythonPatternMatch c.name = true := h c (by simp)
    have ih2 := ih (fun x hx => h x (by simp [hx]))
    simp only [column_defs, sanitize_column_name, hc, if_true, ih2,
      List.map_cons]

theorem filter_branch_eq (p : Column → Bool) (l : List Column)
    (alt : Option String) :
    (if (l.filter p).isEmpty then alt
     else (l.filter p).head?.map Column.name) =
    (match l.find? p with
     | some c => some c.name
     | none => alt) := by
  cases h : l.find? p with
  | none =>
    rw [filter_isEmpty_of_find?_none p l h]
    rfl
  | some c =>
    have hh := List.filter_head? p l
    rw [h] at hh
    cases hfe : l.filter p with
    | nil => rw [hfe] at hh; cases hh
    | cons a as =>
      rw [hfe] at hh
      simp only [List.head?_cons, Option.some.injEq] at hh
      rw [hh]
      rfl

/-- C2: `infer_primary_key` follows exactly the specified selection order
over eligible columns (all values non-null and pairwise-distinct): a
unique eligible column is returned directly; otherwise the first eligible
numeric column in column order, then the first eligible date/time column,
then the first eligible column, then none. -/
theorem infer_primary_key_follows_spec (df : DataFrame) :
    infer_primary_key df = infer_primary_key_spec df := by
  unfold infer_primary_key infer_primary_key_spec unique_columns
  rw [List.filter_congr (fun c _ => eligible_pred_eq c)]
  by_cases h1 : (df.columns.filter eligible_spec).length = 1
  · simp only [h1, if_true]
  · simp only [h1, if_false]
    rw [filter_branch_eq, filter_branch_eq]

/-- C7: the sanitizers are meant to return a string unchanged exactly when
it starts with a letter or underscore followed by letters, digits or
underscores only, and to reject everything else.  The code violates this:
because Python's `$` anchor also matches just before a trailing newline,
`"a\n"` is accepted and returned unchanged by both sanitizers although it
lies outside the stated pattern. -/
theorem sanitize_accepts_trailing_newline :
    sanitize_table_name "a\n" = Except.ok "a\n" ∧
    sanitize_column_name "a\n" = Except.ok "a\n" ∧
    strictIdentifier "a\n" = false :=
  ⟨rfl, rfl, rfl⟩

/-- C10: appending `"_temp"` to a sanitizer-accepted table name is supposed
always to give a sanitizer-accepted staging name.  The code violates this:
`"a\n"` is accepted by `sanitize_table_name` (trailing-newline quirk of
Python's `$`), but `"a\n_temp"` is rejected, so the sanitization step
inside `perform_soft_delete` can fail on an already-sanitized table name.
For every name matching the intended strict pattern the property does
hold. -/
theorem staging_name_sanitization :
    sanitize_table_name "a\n" = Except.ok "a\n" ∧
    sanitize_table_name ("a\n" ++ "_temp") =
      Except.error ("Invalid table name: a\n_temp") ∧
    (∀ s : String, strictIdentifier s = true →
      sanitize_table_name (s ++ "_temp") = Except.ok (s ++ "_temp")) := by
  refine ⟨rfl, rfl, fun s hs => ?_⟩
  exact sanitize_table_name_of_strict _ (strictIdentifier_append_temp s hs)

/-- Witness for the quantified part of `staging_name_sanitization` at the
concrete table name `"t"`. -/
theorem staging_name_sanitization_witness :
    strictIdentifier "t" = true ∧
    sanitize_table_name ("t" ++ "_temp") = Except.ok ("t" ++ "_temp") :=
  ⟨rfl, staging_name_sanitization.2.2 "t" rfl⟩

/-- C3 counterexample: a dataset with zero rows and one column.  Every
column of a zero-row dataset is vacuously unique and non-null, so
`infer_primary_key` returns that column, not none as the claim states. -/
theorem infer_on_empty_dataset_returns_column :
    infer_primary_key ⟨[⟨"a", "object", []⟩]⟩ = some "a" ∧
    DataFrame.nrows ⟨[⟨"a", "object", []⟩]⟩ = 0 :=
  ⟨rfl, rfl⟩

/-- C3 amended: whenever the dataset has no unique/non-null column (for a
zero-row dataset this means having no column at all, since all columns of
a zero-row dataset are vacuously eligible), `infer_primary_key` returns
none; and with no inferred key `perform_soft_delete` returns the table
unchanged with zero updates. -/
theorem infer_none_and_soft_delete_skip (df : DataFrame) :
    (unique_columns df = [] → infer_primary_key df = none) ∧
    (∀ (table_name : String) (now : Nat) (t : List TargetRow),
      perform_soft_delete df table_name none now t = Except.ok (t, 0)) := by
  constructor
  · intro h
    simp [infer_primary_key, h]
  · intro table_name now t
    rfl

/-- Witness for `infer_none_and_soft_delete_skip` at a one-column dataset
whose column has a duplicated value. -/
theorem infer_none_and_soft_delete_skip_witness :
    unique_columns ⟨[⟨"a", "int64", [Value.int 1, Value.int 1]⟩]⟩ = [] ∧
    infer_primary_key ⟨[⟨"a", "int64", [Value.int 1, Value.int 1]⟩]⟩ = none ∧
    perform_soft_delete ⟨[⟨"a", "int64", [Value.int 1, Value.int 1]⟩]⟩ "t"
      none 5 [⟨[Value.int 1], 0, 0, false⟩] =
      Except.ok ([⟨[Value.int 1], 0, 0, false⟩], 0) :=
  ⟨by decide,
   (infer_none_and_soft_delete_skip _).1 (by decide),
   (infer_none_and_soft_delete_skip _).2 "t" 5 _⟩

/-- C6: `create_table_from_dataframe` emits a `CREATE TABLE IF NOT EXISTS`
statement listing, for each dataset column in order, its sanitized name
and mapped sink type, followed by exactly the three bookkeeping columns in
fixed order, with a primary key constraint if and only if a key was
inferred; the dtype mapping sends int64/float64/datetime64[ns]/bool/object
to INT/FLOAT/DATETIME/TINYINT(1)/TEXT and every other dtype to
VARCHAR(255) without failing. -/
theorem create_table_statement_characterization (df : DataFrame)
    (table_name : String) (primary_key : Option String)
    (h : ∀ c ∈ df.columns, pythonPatternMatch c.name = true) :
    create_table_from_dataframe df table_name primary_key =
      Except.ok ("CREATE TABLE IF NOT EXISTS " ++ table_name ++ " (" ++
        String.intercalate ", "
          ((df.columns.map (fun c => c.name ++ " " ++ dtype_mapping c.dtype)) ++
           (["synced_at TIMESTAMP DEFAULT CURRENT_TIMESTAMP",
             "last_modified TIMESTAMP DEFAULT CURRENT_TIMESTAMP ON UPDATE CURRENT_TIMESTAMP",
             "is_deleted BOOLEAN DEFAULT FALSE"] ++
            (match primary_key with
             | some k => ["PRIMARY KEY (" ++ k ++ ")"]
             | none => []))) ++ ");") ∧
    dtype_mapping "int64" = "INT" ∧
    dtype_mapping "float64" = "FLOAT" ∧
    dtype_mapping "datetime64[ns]" = "DATETIME" ∧
    dtype_mapping "bool" = "TINYINT(1)" ∧
    dtype_mapping "object" = "TEXT" ∧
    (∀ d : String,
      d ∉ ["int64", "float64", "datetime64[ns]", "bool", "object"] →
      dtype_mapping d = "VARCHAR(255)") := by
  refine ⟨?_, rfl, rfl, rfl, rfl, rfl, ?_⟩
  · rw [create_table_from_dataframe, column_defs_eq_of_valid df.columns h]
    cases primary_key <;> simp [List.append_assoc]
  · intro d hd
    simp only [List.mem_cons, List.not_mem_nil, or_false, not_or] at hd
    obtain ⟨h1, h2, h3, h4, h5⟩ := hd
    simp [dtype_mapping, h1, h2, h3, h4, h5]

set_option maxRecDepth 4000 in
/-- Witness for `create_table_statement_characterization` on a dataset
exercising every dtype branch, including the VARCHAR(255) fallback. -/
theorem create_table_statement_characterization_witness :
    create_table_from_dataframe
        ⟨[⟨"a", "int64", []⟩, ⟨"b", "float64", []⟩,
          ⟨"c", "datetime64[ns]", []⟩, ⟨"d", "bool", []⟩,
          ⟨"e", "object", []⟩, ⟨"f", "int32", []⟩]⟩ "t" (some "a") =
      Except.ok ("CREATE TABLE IF NOT EXISTS t (a INT, b FLOAT, " ++
        "c DATETIME, d TINYINT(1), e TEXT, f VARCHAR(255), " ++
        "synced_at TIMESTAMP DEFAULT CURRENT_TIMESTAMP, " ++
        "last_modified TIMESTAMP DEFAULT CURRENT_TIMESTAMP ON UPDATE CURRENT_TIMESTAMP, " ++
        "is_deleted BOOLEAN DEFAULT FALSE, PRIMARY KEY (a));") := by
  have h := (create_table_statement_characterization
    ⟨[⟨"a", "int64", []⟩, ⟨"b", "float64", []⟩, ⟨"c", "datetime64[ns]", []⟩,
      ⟨"d", "bool", []⟩, ⟨"e", "object", []⟩, ⟨"f", "int32", []⟩]⟩
    "t" (some "a") (by decide)).1
  rw [h]
  rfl

/-- C9: `upsert_data` submits the dataset's rows in consecutive batches of
at most 1000 rows, in dataset row order, with each row tuple in exactly the
dataset's column order; the concatenation of all batches is the full row
sequence, and the batched fold is extensionally the single sequential pass
over all rows, so batch boundaries have no semantic effect on the final
table state. -/
theorem upsert_batches_faithful (df : DataFrame) (keyIdx : Option Nat)
    (now : Nat) (t : List TargetRow) :
    (chunks1000 df.rows).flatten = df.rows ∧
    ((chunks1000 df.rows).all (fun b => decide (b.length ≤ 1000)) = true) ∧
    (df.rows = (List.range df.nrows).map
      (fun i => df.columns.map (fun c => c.values.getD i Value.null))) ∧
    upsert_data df keyIdx now t =
      (match column_defs df.columns with
       | Except.error e => Except.error e
       | Except.ok _ => Except.ok (upsert_rows keyIdx now df.rows t)) := by
  refine ⟨chunks1000_join df.rows, ?_, rfl, ?_⟩
  · rw [List.all_eq_true]
    intro b hb
    exact decide_eq_true (chunks_fuel_length_le _ _ b hb)
  · rw [upsert_data]
    cases column_defs df.columns with
    | error e => rfl
    | ok l =>
      rw [foldl_upsert_chunks, chunks1000_join]

/-- C5: writing one dataset row.  When some table row carries the same
primary-key value, every such row has its dataset columns overwritten with
the new values, its last-modified refreshed to the current time and its
is-deleted flag cleared, while its synced-at is left unchanged and all
other rows are untouched (so the table keeps its length); when no table
row carries that key value, the table is extended by exactly one new row
whose synced-at and last-modified are the current time and whose
is-deleted flag is false. -/
theorem upsert_row_semantics (i now : Nat) (r : List Value)
    (t : List TargetRow) :
    ((∃ x ∈ t, sqlEq (keyAt i x) (rowKey i r) = true) →
      (upsert_row (some i) now r t).length = t.length ∧
      ∀ j : Nat, (upsert_row (some i) now r t).get? j =
        (t.get? j).map (fun x =>
          if sqlEq (keyAt i x) (rowKey i r) then ⟨r, x.synced_at, now, false⟩
          else x)) ∧
    ((∀ x ∈ t, sqlEq (keyAt i x) (rowKey i r) = false) →
      upsert_row (some i) now r t = t ++ [⟨r, now, now, false⟩]) := by
  constructor
  · rintro ⟨x, hx, hkey⟩
    have hany : t.any (fun x => sqlEq (keyAt i x) (rowKey i r)) = true :=
      List.any_eq_true.mpr ⟨x, hx, hkey⟩
    unfold upsert_row
    dsimp only
    rw [if_pos hany]
    refine ⟨List.length_map t _, ?_⟩
    intro j
    exact List.get?_map _ t j
  · intro hall
    have hany : t.any (fun x => sqlEq (keyAt i x) (rowKey i r)) = false := by
      rw [List.any_eq_false]
      intro x hx
      simp [hall x hx]
    unfold upsert_row
    dsimp only
    rw [if_neg (by simp [hany])]

/-- Witness for `upsert_row_semantics`: both branches at concrete inputs.
A key-1 row is overwritten in place (synced-at kept, last-modified set to
the current time 9, flag cleared), and a key-2 row is appended to a table
not containing that key. -/
theorem upsert_row_semantics_witness :
    (upsert_row (some 0) 9 [Value.int 1, Value.str "b"]
        [⟨[Value.int 1, Value.str "a"], 3, 4, false⟩]).get? 0 =
      some ⟨[Value.int 1, Value.str "b"], 3, 9, false⟩ ∧
    upsert_row (some 0) 9 [Value.int 2, Value.str "b"]
        [⟨[Value.int 1, Value.str "a"], 3, 4, false⟩] =
      [⟨[Value.int 1, Value.str "a"], 3, 4, false⟩,
       ⟨[Value.int 2, Value.str "b"], 9, 9, false⟩] := by
  constructor
  · have h := (upsert_row_semantics 0 9 [Value.int 1, Value.str "b"]
      [⟨[Value.int 1, Value.str "a"], 3, 4, false⟩]).1
      ⟨⟨[Value.int 1, Value.str "a"], 3, 4, false⟩, by simp, by rfl⟩
    rw [h.2 0]
    rfl
  · have h := (upsert_row_semantics 0 9 [Value.int 2, Value.str "b"]
      [⟨[Value.int 1, Value.str "a"], 3, 4, false⟩]).2 (by decide)
    rw [h]
    rfl

/-- C4 counterexample: the table name `"a\n"` is accepted by
`sanitize_table_name` (trailing-newline quirk), a key is supplied, and the
table holds a live row whose key value 5 is absent from the dataset's key
column, so the claim demands that row be marked deleted — but
`perform_soft_delete` instead fails while sanitizing the staging name and
performs no update at all. -/
theorem soft_delete_staging_name_counterexample :
    perform_soft_delete ⟨[⟨"id", "int64", [Value.int 1]⟩]⟩ "a\n" (some "id")
        7 [⟨[Value.int 5], 0, 0, false⟩] =
      Except.error ("Invalid table name: a\n_temp") ∧
    sanitize_table_name "a\n" = Except.ok "a\n" :=
  ⟨rfl, rfl⟩

/-- C4 amended: provided the staging name `table_name ++ "_temp"` passes
sanitization, `perform_soft_delete` with an inferred key marks exactly
those table rows whose key value is absent from the dataset's key column
and whose deletion flag is currently false (setting the flag and
refreshing last-modified), leaves every other row completely untouched,
and preserves the table's length; with no inferred key it performs no sink
operation at all and raises no error, whatever the table name. -/
theorem soft_delete_semantics (df : DataFrame) (table_name : String)
    (k : String) (now : Nat) (t : List TargetRow)
    (hname : pythonPatternMatch (table_name ++ "_temp") = true) :
    (∀ (tn2 : String) (df2 : DataFrame),
      perform_soft_delete df2 tn2 none now t = Except.ok (t, 0)) ∧
    (∃ t2 n, perform_soft_delete df table_name (some k) now t =
        Except.ok (t2, n) ∧
      t2.length = t.length ∧
      ∀ j : Nat, t2.get? j = (t.get? j).map (fun x =>
        if x.is_deleted = false ∧
            ∀ u ∈ df.keyValues k,
              sqlEq u (keyAt ((df.colIdx k).getD 0) x) = false then
          { x with is_deleted := true, last_modified := now }
        else x)) := by
  refine ⟨fun tn2 df2 => rfl, ?_⟩
  refine ⟨soft_delete_mark (df.keyValues k) ((df.colIdx k).getD 0) now t,
    soft_delete_count (df.keyValues k) ((df.colIdx k).getD 0) t, ?_, ?_, ?_⟩
  · unfold perform_soft_delete sanitize_table_name
    rw [hname]
    rfl
  · exact List.length_map t _
  · intro j
    unfold soft_delete_mark
    rw [List.get?_map]
    cases hj : t.get? j with
    | none => rfl
    | some x =>
      simp only [Option.map_some']
      congr 1
      by_cases hc : x.is_deleted = false ∧
          ∀ u ∈ df.keyValues k,
            sqlEq u (keyAt ((df.colIdx k).getD 0) x) = false
      · rw [if_pos hc]
        have hb : (!x.is_deleted &&
            !((df.keyValues k).any
              (fun u => sqlEq u (keyAt ((df.colIdx k).getD 0) x)))) = true := by
          rw [Bool.and_eq_true, Bool.not_eq_true', Bool.not_eq_true']
          refine ⟨hc.1, ?_⟩
          rw [List.any_eq_false]
          intro u hu
          simp [hc.2 u hu]
        rw [if_pos hb]
      · rw [if_neg hc]
        have hb : ¬((!x.is_deleted &&
            !((df.keyValues k).any
              (fun u => sqlEq u (keyAt ((df.colIdx k).getD 0) x)))) = true) := by
          rw [Bool.and_eq_true, Bool.not_eq_true', Bool.not_eq_true']
          intro hcc
          refine hc ⟨hcc.1, ?_⟩
          have := List.any_eq_false.mp hcc.2
          intro u hu
          have h2 := this u hu
          simpa using h2
        rw [if_neg hb]

/-- Witness for `soft_delete_semantics` at a concrete table: the live row
with key 5 (absent from the dataset) is marked deleted with last-modified
refreshed, the live row with key 1 (present) is untouched, and an
already-deleted row is untouched. -/
theorem soft_delete_semantics_witness :
    perform_soft_delete ⟨[⟨"id", "int64", [Value.int 1]⟩]⟩ "t" (some "id") 7
        [⟨[Value.int 5], 2, 3, false⟩, ⟨[Value.int 1], 2, 3, false⟩,
         ⟨[Value.int 9], 2, 3, true⟩] =
      Except.ok ([⟨[Value.int 5], 2, 7, true⟩, ⟨[Value.int 1], 2, 3, false⟩,
        ⟨[Value.int 9], 2, 3, true⟩], 1) := by
  obtain ⟨t2, n, he, hlen, hget⟩ := (soft_delete_semantics
    ⟨[⟨"id", "int64", [Value.int 1]⟩]⟩ "t" "id" 7
    [⟨[Value.int 5], 2, 3, false⟩, ⟨[Value.int 1], 2, 3, false⟩,
     ⟨[Value.int 9], 2, 3, true⟩] (by decide)).2
  rw [he]
  have h0 := hget 0
  have h1 := hget 1
  have h2 := hget 2
  have hl : t2.length = 3 := hlen
  have e0 : t2.get? 0 = some ⟨[Value.int 5], 2, 7, true⟩ := by
    rw [h0]; rfl
  have e1 : t2.get? 1 = some ⟨[Value.int 1], 2, 3, false⟩ := by
    rw [h1]; rfl
  have e2 : t2.get? 2 = some ⟨[Value.int 9], 2, 3, true⟩ := by
    rw [h2]; rfl
  have ht2 : t2 = [⟨[Value.int 5], 2, 7, true⟩, ⟨[Value.int 1], 2, 3, false⟩,
      ⟨[Value.int 9], 2, 3, true⟩] := by
    apply List.ext_get?
    intro j
    match j with
    | 0 => exact e0
    | 1 => exact e1
    | 2 => exact e2
    | j + 3 =>
      rw [List.get?_eq_none.mpr (by omega), List.get?_eq_none.mpr (by simp)]
  rw [ht2]
  have hn : n = 1 := by
    have := he
    rw [show perform_soft_delete ⟨[⟨"id", "int64", [Value.int 1]⟩]⟩ "t"
        (some "id") 7 [⟨[Value.int 5], 2, 3, false⟩,
          ⟨[Value.int 1], 2, 3, false⟩, ⟨[Value.int 9], 2, 3, true⟩] =
        Except.ok ([⟨[Value.int 5], 2, 7, true⟩,
          ⟨[Value.int 1], 2, 3, false⟩, ⟨[Value.int 9], 2, 3, true⟩], 1)
      from rfl] at this
    cases this
    rfl
  rw [hn]

/-- C1: whenever the statements preceding the `try` block succeed and any
stage inside it (ensure-table, upsert, or soft-delete reconciliation)
raises, `sync_data` rolls the transaction back and reports the sync as a
single terminal failure: the committed table state is exactly what it was
before the session, so no earlier batch or stage is partially applied. -/
theorem sync_rolls_back_on_stage_error (conn : Connection) (df : DataFrame)
    (file : String) (now : Nat) (table_name : String)
    (primary_key : Option String) (e : String)
    (hprep : sync_prepare df file = Except.ok (table_name, primary_key))
    (hfail : run_sync_stages df table_name primary_key now conn.pending =
      Except.error e) :
    sync_data conn df file now =
      (⟨conn.committed, conn.committed⟩, SyncOutcome.failure e) := by
  simp only [sync_data, hprep, hfail]

/-- Witness for `sync_rolls_back_on_stage_error`: the soft-delete stage of
a session on table name `"t\n"` (accepted by the sanitizer) fails while
sanitizing the staging name, and the failure leaves the committed state
untouched. -/
theorem sync_rolls_back_on_stage_error_witness :
    sync_data ⟨some [], some []⟩ ⟨[⟨"id", "int64", [Value.int 1]⟩]⟩
        "t\n.csv" 5 =
      (⟨some [], some []⟩, SyncOutcome.failure "Invalid table name: t\n_temp") :=
  sync_rolls_back_on_stage_error ⟨some [], some []⟩
    ⟨[⟨"id", "int64", [Value.int 1]⟩]⟩ "t\n.csv" 5 "t\n" (some "id")
    "Invalid table name: t\n_temp" rfl rfl

/-- C8 counterexample: when no primary key is inferable (here a single
column with a duplicated value), upsert degenerates to plain insert, so
running the full sync twice with the unchanged dataset doubles the row
count instead of leaving it unchanged. -/
theorem sync_twice_no_key_counterexample :
    ((sync_data (sync_data ⟨none, none⟩
        ⟨[⟨"a", "int64", [Value.int 1, Value.int 1]⟩]⟩ "t.csv" 1).1
        ⟨[⟨"a", "int64", [Value.int 1, Value.int 1]⟩]⟩ "t.csv" 2).1.committed.map
      List.length) = some 4 ∧
    ((sync_data ⟨none, none⟩
        ⟨[⟨"a", "int64", [Value.int 1, Value.int 1]⟩]⟩
        "t.csv" 1).1.committed.map List.length) = some 2 :=
  ⟨rfl, rfl⟩

/-- C8 amended: provided a primary key is inferred for the (well-formed,
distinctly named) dataset and the first full sync succeeds, running the
full sync a second time with the unchanged dataset succeeds and leaves the
committed table equal to the first run's table up to refreshing the
last-modified timestamps of exactly the rows whose key occurs in the
dataset — so row count, all data values, synced-at times and deletion
flags are unchanged after the second run. -/
theorem sync_twice_idempotent (conn : Connection) (df : DataFrame)
    (file : String) (now1 now2 : Nat) (k : String) (i : Nat)
    (conn1 : Connection) (m : Nat)
    (hnames : (df.columns.map Column.name).Nodup)
    (hwf : df.wf)
    (hk : infer_primary_key df = some k)
    (hi : df.colIdx k = some i)
    (h1 : sync_data conn df file now1 = (conn1, SyncOutcome.success m)) :
    ∃ T1, conn1 = ⟨some T1, some T1⟩ ∧
      sync_data conn1 df file now2 =
        (⟨some (T1.map (fun x =>
            if (df.keyValues k).any (fun u => sqlEq u (keyAt i x)) then
              { x with last_modified := now2 } else x)),
          some (T1.map (fun x =>
            if (df.keyValues k).any (fun u => sqlEq u (keyAt i x)) then
              { x with last_modified := now2 } else x))⟩,
         SyncOutcome.success df.nrows) := by
  obtain ⟨tname, pk, T1, hprep, hstages, hconn1, hm⟩ :=
    sync_data_success_decompose conn df file now1 conn1 m h1
  have hpk : pk = some k := sync_prepare_ok_key df file tname pk k hk hprep
  subst hpk
  obtain ⟨⟨l, hcd⟩, ⟨s, hsan⟩, hT1⟩ :=
    run_sync_stages_some_decompose df tname k i hi now1 conn.pending T1
      hstages
  refine ⟨T1, hconn1, ?_⟩
  unfold sync_data
  rw [hprep]
  dsimp only
  rw [run_sync_stages_some_eval df tname k i hi now2 conn1.pending l s
    hcd hsan]
  dsimp only
  have hpend : conn1.pending = some T1 := by rw [hconn1]
  rw [hpend]
  simp only [Option.getD_some]
  have hks : df.keyValues k = df.rows.map (rowKey i) :=
    keyValues_eq_rows_map df k i hi hwf
  have hnn : ∀ r ∈ df.rows, rowKey i r ≠ Value.null := by
    intro r hr
    have hmem : rowKey i r ∈ df.keyValues k := by
      rw [hks]
      exact List.mem_map_of_mem _ hr
    exact keyValues_nonnull df k i hnames hk hi _ hmem
  have hnd := keyValues_nodup df k i hnames hk hi
  have hcore := sync_stages_idempotent_core i now1 now2 df.rows
    (df.keyValues k) (conn.pending.getD []) hks hnn hnd
  rw [hT1, hcore]

/-- Witness for `sync_twice_idempotent`: the two-row id/name dataset,
synced once into an empty sink at time 1 and a second time at time 2; the
second run keeps both rows' data, synced-at times and flags, refreshing
only last-modified. -/
theorem sync_twice_idempotent_witness :
    sync_data
        ⟨some [⟨[Value.int 1, Value.str "a"], 1, 1, false⟩,
               ⟨[Value.int 2, Value.str "b"], 1, 1, false⟩],
         some [⟨[Value.int 1, Value.str "a"], 1, 1, false⟩,
               ⟨[Value.int 2, Value.str "b"], 1, 1, false⟩]⟩
        ⟨[⟨"id", "int64", [Value.int 1, Value.int 2]⟩,
          ⟨"name", "object", [Value.str "a", Value.str "b"]⟩]⟩ "t.csv" 2 =
      (⟨some [⟨[Value.int 1, Value.str "a"], 1, 2, false⟩,
              ⟨[Value.int 2, Value.str "b"], 1, 2, false⟩],
        some [⟨[Value.int 1, Value.str "a"], 1, 2, false⟩,
              ⟨[Value.int 2, Value.str "b"], 1, 2, false⟩]⟩,
       SyncOutcome.success 2) := by
  obtain ⟨T1, hc, hrun⟩ := sync_twice_idempotent ⟨none, none⟩
    ⟨[⟨"id", "int64", [Value.int 1, Value.int 2]⟩,
      ⟨"name", "object", [Value.str "a", Value.str "b"]⟩]⟩ "t.csv" 1 2
    "id" 0
    ⟨some [⟨[Value.int 1, Value.str "a"], 1, 1, false⟩,
           ⟨[Value.int 2, Value.str "b"], 1, 1, false⟩],
     some [⟨[Value.int 1, Value.str "a"], 1, 1, false⟩,
           ⟨[Value.int 2, Value.str "b"], 1, 1, false⟩]⟩ 2
    (by decide) (by unfold DataFrame.wf; decide) rfl rfl rfl
  have hT : T1 = [⟨[Value.int 1, Value.str "a"], 1, 1, false⟩,
      ⟨[Value.int 2, Value.str "b"], 1, 1, false⟩] := by
    have h2 := congrArg Connection.committed hc
    simpa using h2.symm
  rw [hT] at hrun
  exact hrun.trans (by rfl)

end ELT
